import Mathlib

/-!
Verification of the study-planner core of `ai-study-planner-backend`.

The planning pipeline (`app/services/study_planner.py`) and the importance
scorer (`app/services/nlp_service.py`) are embedded shallowly: Python dicts
become insertion-ordered association lists, Python floats become exact
rationals (`ℚ`), `round(x, n)` becomes round-half-to-even at `n` decimal
digits, `int(x)` becomes truncation toward zero, and Python's stable
`sorted(..., reverse=True)` becomes `List.mergeSort` with the reversed
comparison (the unique stable descending sort).
-/

namespace StudyPlanner

/-- Round half to even on `ℚ`, the rounding mode of Python's `round`. -/
def rhe (x : ℚ) : ℤ :=
  if x - ⌊x⌋ < 1/2 then ⌊x⌋
  else if 1/2 < x - ⌊x⌋ then ⌊x⌋ + 1
  else if 2 ∣ ⌊x⌋ then ⌊x⌋ else ⌊x⌋ + 1

/-- Python `round(x, n)` over the idealised rational model. -/
def pyRound (n : ℕ) (x : ℚ) : ℚ := (rhe (x * 10 ^ n) : ℚ) / 10 ^ n

/-- Python `int(x)`: truncation toward zero. -/
def pyInt (x : ℚ) : ℤ := if 0 ≤ x then ⌊x⌋ else -⌊-x⌋

/-- Python `d.get(q, default)` on a rational-valued dict. -/
def dget (d : List (String × ℚ)) (q : String) (default : ℚ) : ℚ :=
  (List.lookup q d).getD default

/-- Sum of the values of an association list (`sum(d.values())`). -/
def sumVals (l : List (String × ℚ)) : ℚ := (l.map (fun p => p.2)).sum

/-- Python's stable `sorted(l, key=key, reverse=True)`. -/
def pySortDesc {α : Type} (key : α → ℚ) (l : List α) : List α :=
  l.mergeSort (fun a b => decide (key b ≤ key a))

/-- The floor-enforcement loop of `_allocate_time_to_topics`
(`study_planner.py` lines 140-144): each topic below 0.5 hours is bumped to
0.5 hours provided the budget covers the minimum for every topic. -/
def floorStep (topic_hours : List (String × ℚ)) (total_hours : ℚ) :
    List (String × ℚ) :=
  topic_hours.map (fun p =>
    if p.2 < 1/2 ∧ 1/2 * (topic_hours.length : ℚ) ≤ total_hours
    then (p.1, 1/2) else p)

/-- Embedding of `StudyPlannerService._allocate_time_to_topics` (`study_planner.py`
lines 108-152). -/
def allocateTimeToTopics (topic_importance : List (String × ℚ))
    (total_hours : ℚ) : List (String × ℚ) :=
  if topic_importance.isEmpty then []
  else
    let total_importance := sumVals topic_importance
    if total_importance = 0 then
      let hours_per_topic := total_hours / (topic_importance.length : ℚ)
      topic_importance.map (fun p => (p.1, pyRound 2 hours_per_topic))
    else
      let topic_hours := topic_importance.map
        (fun p => (p.1, pyRound 2 (p.2 / total_importance * total_hours)))
      let floored := floorStep topic_hours total_hours
      let current_total := sumVals floored
      if 0 < current_total then
        let scale_factor := total_hours / current_total
        floored.map (fun p => (p.1, pyRound 2 (p.2 * scale_factor)))
      else floored

set_option maxRecDepth 4000

/-- Evaluation helper for `allocateTimeToTopics` in the
positive-total-importance, positive-rescale branch: each intermediate stage
is supplied as an explicit hypothesis so that concrete runs can be computed
stage by stage. -/
theorem allocate_eval (ti : List (String × ℚ)) (H S W : ℚ)
    (th fl res : List (String × ℚ))
    (hne : ti.isEmpty = false)
    (hS : sumVals ti = S) (hS0 : ¬ S = 0)
    (hth : ti.map (fun p => (p.1, pyRound 2 (p.2 / S * H))) = th)
    (hfl : floorStep th H = fl)
    (hW : sumVals fl = W) (hW0 : 0 < W)
    (hres : fl.map (fun p => (p.1, pyRound 2 (p.2 * (H / W)))) = res) :
    allocateTimeToTopics ti H = res := by
  rw [allocateTimeToTopics]
  rw [hne]
  simp only [Bool.false_eq_true, if_false, hS, if_neg hS0, hth, hfl, hW,
    if_pos hW0, hres]

/-- Concrete run of the allocator on importance `{A: 0.9, B: 0.1}` with a
budget of 1 hour: `B`'s 0.1 is below the 0.5 floor and `1 ≥ 0.5 * 2`,
so the floor fires and renormalisation yields `{A: 0.64, B: 0.36}`. -/
theorem allocAB_eval :
    allocateTimeToTopics [("A", 9/10), ("B", 1/10)] 1 =
      [("A", 16/25), ("B", 9/25)] := by
  apply allocate_eval _ _ 1 (7/5) [("A", 9/10), ("B", 1/10)]
      [("A", 9/10), ("B", 1/2)]
  · rfl
  · norm_num [sumVals]
  · norm_num
  · norm_num [pyRound, rhe, Int.fract, -Int.self_sub_floor]
  · norm_num [floorStep]
  · norm_num [sumVals]
  · norm_num
  · norm_num [pyRound, rhe, Int.fract, -Int.self_sub_floor]

/-- Concrete run of the allocator on three equally important topics with a
0.1-hour budget: 2-decimal rounding loses 0.01 of the budget. -/
theorem allocABC_eval :
    allocateTimeToTopics [("A", 1), ("B", 1), ("C", 1)] (1/10) =
      [("A", 3/100), ("B", 3/100), ("C", 3/100)] := by
  apply allocate_eval _ _ 3 (9/100) [("A", 3/100), ("B", 3/100), ("C", 3/100)]
      [("A", 3/100), ("B", 3/100), ("C", 3/100)]
  · rfl
  · norm_num [sumVals]
  · norm_num
  · norm_num [pyRound, rhe, Int.fract, -Int.self_sub_floor]
  · norm_num [floorStep]
  · norm_num [sumVals]
  · norm_num
  · norm_num [pyRound, rhe, Int.fract, -Int.self_sub_floor]

/-- Round half to even moves a value by at most one half. -/
theorem abs_rhe_sub_le (x : ℚ) : |(rhe x : ℚ) - x| ≤ 1/2 := by
  have h1 : (⌊x⌋ : ℚ) ≤ x := Int.floor_le x
  have h2 : x < ⌊x⌋ + 1 := Int.lt_floor_add_one x
  unfold rhe
  split_ifs with ha hb hc
  · rw [abs_le]; constructor <;> linarith
  · push_cast; rw [abs_le]; constructor <;> linarith
  · rw [abs_le]; constructor <;> linarith [not_lt.mp ha]
  · push_cast; rw [abs_le]; constructor <;> linarith [not_lt.mp ha]

/-- `round(x, 2)` moves a value by at most `0.005`. -/
theorem abs_pyRound2_sub_le (x : ℚ) : |pyRound 2 x - x| ≤ 1/200 := by
  have h := abs_rhe_sub_le (x * 10 ^ 2)
  rw [pyRound]
  rw [abs_le] at h ⊢
  norm_num at h ⊢
  constructor <;> linarith

/-- `round(x, 3)` moves a value by at most `0.0005`. -/
theorem abs_pyRound3_sub_le (x : ℚ) : |pyRound 3 x - x| ≤ 1/2000 := by
  have h := abs_rhe_sub_le (x * 10 ^ 3)
  rw [pyRound]
  rw [abs_le] at h ⊢
  norm_num at h ⊢
  constructor <;> linarith

theorem rhe_nonneg (x : ℚ) (hx : 0 ≤ x) : 0 ≤ rhe x := by
  have h0 : 0 ≤ ⌊x⌋ := Int.floor_nonneg.mpr hx
  unfold rhe
  split_ifs <;> omega

theorem pyRound_nonneg (n : ℕ) (x : ℚ) (hx : 0 ≤ x) : 0 ≤ pyRound n x := by
  rw [pyRound]
  apply div_nonneg _ (by positivity)
  exact_mod_cast rhe_nonneg _ (by positivity)

/-- Round half to even never jumps past an integer upper bound. -/
theorem rhe_le_int (x : ℚ) (m : ℤ) (h : x ≤ m) : rhe x ≤ m := by
  have hfl : ⌊x⌋ ≤ m := by
    have := Int.floor_mono h
    rwa [Int.floor_intCast] at this
  have h1 : (⌊x⌋ : ℚ) ≤ x := Int.floor_le x
  unfold rhe
  split_ifs with ha hb hc
  · exact hfl
  · have hq : (⌊x⌋ : ℚ) < m := by linarith
    have : ⌊x⌋ < m := by exact_mod_cast hq
    omega
  · exact hfl
  · have hq : (⌊x⌋ : ℚ) < m := by linarith [not_lt.mp ha]
    have : ⌊x⌋ < m := by exact_mod_cast hq
    omega

theorem pyRound_le_one (n : ℕ) (x : ℚ) (hx : x ≤ 1) : pyRound n x ≤ 1 := by
  rw [pyRound, div_le_one (by positivity)]
  have hb : x * 10 ^ n ≤ ((10 ^ n : ℤ) : ℚ) := by
    push_cast
    calc x * 10 ^ n ≤ 1 * 10 ^ n := by
          exact mul_le_mul_of_nonneg_right hx (by positivity)
    _ = 10 ^ n := one_mul _
  have := rhe_le_int _ _ hb
  exact_mod_cast this

theorem sumVals_nonneg (l : List (String × ℚ)) (h : ∀ p ∈ l, 0 ≤ p.2) :
    0 ≤ sumVals l := by
  apply List.sum_nonneg
  intro x hx
  rw [List.mem_map] at hx
  obtain ⟨p, hp, rfl⟩ := hx
  exact h p hp

/-- Summing the second components after pairing with a computed value. -/
theorem sumVals_map_pair {α : Type} (l : List α) (k : α → String)
    (F : α → ℚ) :
    sumVals (l.map fun p => (k p, F p)) = (l.map fun p => F p).sum := by
  rw [sumVals, List.map_map]
  rfl

/-- A list whose entries move by at most `c` has a sum moving by at most
`length * c`. -/
theorem abs_sum_sub_le {α : Type} (l : List α) (f g : α → ℚ) (c : ℚ)
    (h : ∀ x ∈ l, |f x - g x| ≤ c) :
    |(l.map f).sum - (l.map g).sum| ≤ (l.length : ℚ) * c := by
  induction l with
  | nil => simp
  | cons a t ih =>
    have ha := h a (List.mem_cons_self a t)
    have ht := ih (fun x hx => h x (List.mem_cons_of_mem a hx))
    simp only [List.map_cons, List.sum_cons, List.length_cons]
    have e : f a + (t.map f).sum - (g a + (t.map g).sum)
        = (f a - g a) + ((t.map f).sum - (t.map g).sum) := by ring
    rw [e]
    calc |(f a - g a) + ((t.map f).sum - (t.map g).sum)|
        ≤ |f a - g a| + |(t.map f).sum - (t.map g).sum| := abs_add _ _
    _ ≤ c + (t.length : ℚ) * c := add_le_add ha ht
    _ = ((t.length : ℚ) + 1) * c := by ring
    _ = (((t.length + 1 : ℕ)) : ℚ) * c := by push_cast; ring

theorem sum_le_length_mul {α : Type} (l : List α) (f : α → ℚ) (c : ℚ)
    (h : ∀ x ∈ l, f x ≤ c) : (l.map f).sum ≤ (l.length : ℚ) * c := by
  induction l with
  | nil => simp
  | cons a t ih =>
    have ha := h a (List.mem_cons_self a t)
    have ht := ih (fun x hx => h x (List.mem_cons_of_mem a hx))
    simp only [List.map_cons, List.sum_cons, List.length_cons]
    push_cast
    linarith

theorem sum_eq_zero_of_nonneg {α : Type} (l : List α) (f : α → ℚ)
    (h0 : ∀ x ∈ l, 0 ≤ f x) (hs : (l.map f).sum = 0) : ∀ x ∈ l, f x = 0 := by
  induction l with
  | nil => simp
  | cons a t ih =>
    simp only [List.map_cons, List.sum_cons] at hs
    have ha := h0 a (List.mem_cons_self a t)
    have hts : 0 ≤ (t.map f).sum := by
      apply List.sum_nonneg
      intro x hx
      rw [List.mem_map] at hx
      obtain ⟨y, hy, rfl⟩ := hx
      exact h0 y (List.mem_cons_of_mem a hy)
    have hfa : f a = 0 := by linarith
    have hsum : (t.map f).sum = 0 := by linarith
    intro x hx
    rcases List.mem_cons.mp hx with rfl | hx
    · exact hfa
    · exact ih (fun y hy => h0 y (List.mem_cons_of_mem a hy)) hsum x hx

theorem sum_map_const {α : Type} (l : List α) (c : ℚ) :
    (l.map fun _ => c).sum = (l.length : ℚ) * c := by
  induction l with
  | nil => simp
  | cons a t ih =>
    simp only [List.map_cons, List.sum_cons, List.length_cons, ih]
    push_cast
    ring

theorem mem_floorStep {th : List (String × ℚ)} {H : ℚ} {p : String × ℚ}
    (hp : p ∈ floorStep th H) : p.2 = 1/2 ∨ p ∈ th := by
  rw [floorStep, List.mem_map] at hp
  obtain ⟨q, hq, rfl⟩ := hp
  split_ifs with h
  · left; rfl
  · right; exact hq

/-- C1 (counterexample): on three equally important topics and a 0.1-hour
budget, the allocator returns 0.03 + 0.03 + 0.03 = 0.09 hours, which misses
the requested 0.1 hours by far more than a relative 1e-6. -/
theorem C1_counterexample :
    ¬ |sumVals (allocateTimeToTopics [("A", 1), ("B", 1), ("C", 1)] (1/10))
        - 1/10| ≤ (1/1000000) * (1/10) := by
  rw [allocABC_eval]
  have e : sumVals [("A", (3:ℚ)/100), ("B", 3/100), ("C", 3/100)] = 9/100 := by
    norm_num [sumVals]
  rw [e]
  intro hcon
  rw [abs_le] at hcon
  have := hcon.1
  norm_num at this

/-- C1 (amended): for every non-empty `topic_importance` association list
with non-negative importance values and every `total_hours ≥ 0`, the sum of
the allocator's output values differs from `total_hours` by at most
`0.005 * topic_count` in absolute terms (each topic's final value is
produced by one `round(x, 2)`). The spec's claimed relative 1e-6 bound
fails because of this 2-decimal rounding. -/
theorem C1_allocation_conservation (ti : List (String × ℚ)) (H : ℚ)
    (hne : ti ≠ []) (hpos : ∀ p ∈ ti, 0 ≤ p.2) (hH : 0 ≤ H) :
    |sumVals (allocateTimeToTopics ti H) - H| ≤ (ti.length : ℚ) * (1/200) := by
  have hlen : 0 < ti.length := List.length_pos.mpr hne
  have hlenQ : (0:ℚ) < (ti.length : ℚ) := by exact_mod_cast hlen
  have hEmp : ti.isEmpty = false := by
    cases ti with
    | nil => exact absurd rfl hne
    | cons a t => rfl
  rw [allocateTimeToTopics, hEmp]
  simp only [Bool.false_eq_true, if_false]
  by_cases hS0 : sumVals ti = 0
  · rw [if_pos hS0]
    have e1 : sumVals (ti.map fun p =>
          (p.1, pyRound 2 (H / (ti.length : ℚ))))
        = (ti.length : ℚ) * pyRound 2 (H / (ti.length : ℚ)) := by
      rw [sumVals_map_pair]
      exact sum_map_const ti _
    rw [e1]
    have h2 := abs_pyRound2_sub_le (H / (ti.length : ℚ))
    have e2 : (ti.length : ℚ) * pyRound 2 (H / (ti.length : ℚ)) - H
        = (ti.length : ℚ) *
          (pyRound 2 (H / (ti.length : ℚ)) - H / (ti.length : ℚ)) := by
      rw [mul_sub]
      congr 1
      rw [mul_comm, div_mul_cancel₀ H (ne_of_gt hlenQ)]
    rw [e2, abs_mul, abs_of_pos hlenQ]
    exact mul_le_mul_of_nonneg_left h2 (le_of_lt hlenQ)
  · rw [if_neg hS0]
    have hSnn : 0 ≤ sumVals ti := sumVals_nonneg ti hpos
    have hSpos : 0 < sumVals ti := lt_of_le_of_ne hSnn (Ne.symm hS0)
    set S := sumVals ti with hSdef
    set TH := ti.map (fun p => (p.1, pyRound 2 (p.2 / S * H))) with hTH
    set FL := floorStep TH H with hFL
    have hTHlen : TH.length = ti.length := by rw [hTH, List.length_map]
    have hFLlen : FL.length = ti.length := by
      rw [hFL, floorStep, List.length_map, hTHlen]
    have hTHnn : ∀ q ∈ TH, 0 ≤ q.2 := by
      intro q hq
      rw [hTH, List.mem_map] at hq
      obtain ⟨r, hr, rfl⟩ := hq
      exact pyRound_nonneg _ _
        (mul_nonneg (div_nonneg (hpos r hr) (le_of_lt hSpos)) hH)
    have hFLnn : ∀ p ∈ FL, 0 ≤ p.2 := by
      intro p hp
      rcases mem_floorStep (hFL ▸ hp) with h | h
      · rw [h]; norm_num
      · exact hTHnn p h
    by_cases hW : 0 < sumVals FL
    · rw [if_pos hW]
      set W := sumVals FL with hWdef
      have e3 : sumVals (FL.map fun p => (p.1, pyRound 2 (p.2 * (H / W))))
          = (FL.map fun p => pyRound 2 (p.2 * (H / W))).sum :=
        sumVals_map_pair FL _ _
      rw [e3]
      have happrox := abs_sum_sub_le FL
        (fun p => pyRound 2 (p.2 * (H / W))) (fun p => p.2 * (H / W)) (1/200)
        (fun p _ => abs_pyRound2_sub_le _)
      have e4 : (FL.map fun p => p.2 * (H / W)).sum = H := by
        rw [List.sum_map_mul_right]
        have : (FL.map fun p => p.2).sum = W := rfl
        rw [this, mul_comm, div_mul_cancel₀ H (ne_of_gt hW)]
      rw [e4, hFLlen] at happrox
      exact happrox
    · rw [if_neg hW]
      have hWnn : 0 ≤ sumVals FL := sumVals_nonneg FL hFLnn
      have hW0 : sumVals FL = 0 := le_antisymm (not_lt.mp hW) hWnn
      rw [hW0, zero_sub, abs_neg, abs_of_nonneg hH]
      have hall : ∀ p ∈ FL, p.2 = 0 := by
        have := sum_eq_zero_of_nonneg FL (fun p => p.2)
          (fun p hp => hFLnn p hp) hW0
        exact this
      have hprop : ∀ r ∈ ti, r.2 / S * H ≤ 1/200 := by
        intro r hr
        have hq : (r.1, pyRound 2 (r.2 / S * H)) ∈ TH := by
          rw [hTH]
          exact List.mem_map_of_mem _ hr
        have himg :
            (if (pyRound 2 (r.2 / S * H)) < 1/2 ∧
                1/2 * (TH.length : ℚ) ≤ H
             then ((r.1, pyRound 2 (r.2 / S * H)).1, (1:ℚ)/2)
             else (r.1, pyRound 2 (r.2 / S * H))) ∈ FL := by
          rw [hFL, floorStep]
          exact List.mem_map_of_mem _ hq
        split_ifs at himg with hc
        · have := hall _ himg
          norm_num at this
        · have h0 : pyRound 2 (r.2 / S * H) = 0 := hall _ himg
          have := abs_pyRound2_sub_le (r.2 / S * H)
          rw [h0, zero_sub, abs_neg,
            abs_of_nonneg
              (mul_nonneg (div_nonneg (hpos r hr) (le_of_lt hSpos)) hH)]
            at this
          exact this
      have eH : (ti.map fun r => r.2 / S * H).sum = H := by
        have e5 : (ti.map fun r => r.2 / S * H)
            = ti.map fun r => r.2 * (H / S) := by
          apply List.map_congr_left
          intro r _
          ring
        rw [e5, List.sum_map_mul_right]
        have : (ti.map fun p => p.2).sum = S := rfl
        rw [this, mul_comm, div_mul_cancel₀ H (ne_of_gt hSpos)]
      calc H = (ti.map fun r => r.2 / S * H).sum := eH.symm
      _ ≤ (ti.length : ℚ) * (1/200) :=
        sum_le_length_mul ti (fun r => r.2 / S * H) (1/200) hprop

/-- C1 (witness): the amended conservation bound instantiated on a single
topic of importance 1 with a 1-hour budget. -/
theorem C1_witness :
    |sumVals (allocateTimeToTopics [("A", 1)] 1) - 1|
      ≤ (([("A", (1:ℚ))]).length : ℚ) * (1/200) := by
  apply C1_allocation_conservation [("A", 1)] 1
  · simp
  · intro p hp
    simp only [List.mem_singleton] at hp
    rw [hp]
    norm_num
  · norm_num

/-- C3 (counterexample): for importance `{A: 0.9, B: 0.1}` with
`total_hours = 1` the output is NOT `{A: 0.9, B: 0.1}`: since
`1 ≥ 0.5 * 2`, the floor fires on `B` and renormalisation yields
`{A: 0.64, B: 0.36}`. -/
theorem C3_counterexample :
    allocateTimeToTopics [("A", 9/10), ("B", 1/10)] 1
      ≠ [("A", 9/10), ("B", 1/10)]
    ∧ allocateTimeToTopics [("A", 9/10), ("B", 1/10)] 1
      = [("A", 16/25), ("B", 9/25)] := by
  refine ⟨?_, allocAB_eval⟩
  rw [allocAB_eval]
  intro h
  simp only [List.cons.injEq, Prod.mk.injEq] at h
  norm_num at h

/-- C3 (amended): a topic whose proportional allocation is below 0.5 hours
is bumped to 0.5 hours if and only if `total_hours ≥ 0.5 * topic_count`
(the floor stage is the identity when the budget is too small, and after it
every topic is at least at the minimum when the budget suffices; topics at
or above the minimum are never changed). In particular, for importance
`{A: 0.9, B: 0.1}` with `total_hours = 1` the threshold `1 ≥ 0.5 * 2` IS
met, so the floor applies and the final output is `{A: 0.64, B: 0.36}`,
not the proportional `{A: 0.9, B: 0.1}` the spec predicts. -/
theorem C3_floor_policy :
    (∀ (th : List (String × ℚ)) (H : ℚ),
        H < 1/2 * (th.length : ℚ) → floorStep th H = th)
    ∧ (∀ (th : List (String × ℚ)) (H : ℚ),
        1/2 * (th.length : ℚ) ≤ H → ∀ p ∈ floorStep th H, 1/2 ≤ p.2)
    ∧ (∀ (th : List (String × ℚ)) (H : ℚ) (p : String × ℚ),
        p ∈ th → 1/2 ≤ p.2 → p ∈ floorStep th H)
    ∧ allocateTimeToTopics [("A", 9/10), ("B", 1/10)] 1
        = [("A", 16/25), ("B", 9/25)] := by
  refine ⟨?_, ?_, ?_, allocAB_eval⟩
  · intro th H hlt
    rw [floorStep]
    have hpt : ∀ p ∈ th,
        (if p.2 < 1/2 ∧ 1/2 * (th.length : ℚ) ≤ H
         then ((p : String × ℚ).1, (1:ℚ)/2) else p) = id p := by
      intro p _
      rw [if_neg]
      · rfl
      · rintro ⟨-, hc⟩
        exact absurd hc (not_le.mpr hlt)
    rw [List.map_congr_left hpt, List.map_id]
  · intro th H hge p hp
    rw [floorStep, List.mem_map] at hp
    obtain ⟨q, hq, rfl⟩ := hp
    split_ifs with hc
    · norm_num
    · rcases not_and_or.mp hc with h | h
      · exact not_lt.mp h
      · exact absurd hge h
  · intro th H p hp hge
    have he : (if p.2 < 1/2 ∧ 1/2 * (th.length : ℚ) ≤ H
        then (p.1, (1:ℚ)/2) else p) = p := by
      rw [if_neg]
      rintro ⟨hlt, -⟩
      exact absurd hge (not_le.mpr hlt)
    rw [floorStep]
    exact List.mem_map.mpr ⟨p, hp, he⟩

/-- C3 (witness): the floor stage is the identity on a single topic at 0.25
hours with a 0.25-hour budget (`0.25 < 0.5 * 1`), and a topic already at
0.75 hours survives the floor stage unchanged under a 10-hour budget. -/
theorem C3_witness :
    floorStep [("A", (1:ℚ)/4)] (1/4) = [("A", (1:ℚ)/4)]
    ∧ ("A", (3:ℚ)/4) ∈ floorStep [("A", (3:ℚ)/4)] 10 := by
  constructor
  · exact C3_floor_policy.1 [("A", (1:ℚ)/4)] (1/4) (by norm_num)
  · exact C3_floor_policy.2.2.1 [("A", (3:ℚ)/4)] 10 ("A", (3:ℚ)/4)
      (by simp) (by norm_num)

/-- The `StudySession` pydantic model (`app/models/schemas.py` lines
76-83). -/
structure StudySession where
  topic : String
  duration_minutes : ℤ
  importance_score : ℚ
  questions_to_cover : List String
  day : ℕ
  session_number : ℕ
deriving DecidableEq, Repr

/-- The slice `topic_questions[start_idx:end_idx]` taken for session `i` of
a topic (`study_planner.py` lines 212-215): chunks of `qps` questions, the
last session absorbing the remainder. -/
def sessionChunk (tqs : List String) (num_sessions qps i : ℕ) : List String :=
  let start_idx := i * qps
  let end_idx := if i < num_sessions - 1 then start_idx + qps else tqs.length
  (tqs.drop start_idx).take (end_idx - start_idx)

/-- Construction of one `StudySession` record inside the packing loop
(`study_planner.py` lines 217-229). -/
def mkSession (topic_name : String) (minutes_per_session : ℚ)
    (session_questions : List String) (imp : List (String × ℚ))
    (day n : ℕ) : StudySession :=
  let session_importance :=
    (session_questions.map fun q => dget imp q (1/2)).sum
      / (max session_questions.length 1 : ℚ)
  { topic := topic_name
    duration_minutes := pyInt minutes_per_session
    importance_score := pyRound 3 session_importance
    questions_to_cover := session_questions.map fun q => q.take 100
    day := day
    session_number := n }

/-- The inner `for i in range(num_sessions)` loop of
`_create_study_sessions` (`study_planner.py` lines 206-233), threading the
running state `(current_day, daily_study_time, session_number)`. -/
def packGo (topic_name : String) (tqs : List String) (mps : ℚ) (ns qps : ℕ)
    (imp : List (String × ℚ)) :
    List ℕ → ℕ → ℚ → ℕ → List StudySession × ℕ × ℚ × ℕ
  | [], day, daily, n => ([], day, daily, n)
  | i :: rest, day, daily, n =>
    let day' := if 240 < daily + mps then day + 1 else day
    let daily' : ℚ := if 240 < daily + mps then 0 else daily
    let s := mkSession topic_name mps (sessionChunk tqs ns qps i) imp day' n
    let r := packGo topic_name tqs mps ns qps imp rest day' (daily' + mps)
      (n + 1)
    (s :: r.1, r.2)

/-- The outer topic loop of `_create_study_sessions` (`study_planner.py`
lines 184-233): topics missing from the `topics` dict are skipped, and the
day/daily-minutes/session-number state carries across topics. -/
def topicsGo (topics : List (String × List String)) (imp : List (String × ℚ))
    (study_duration : ℕ) :
    List (String × ℚ) → ℕ → ℚ → ℕ → List StudySession
  | [], _, _, _ => []
  | (topic_name, allocated_hours) :: rest, day, daily, n =>
    match List.lookup topic_name topics with
    | none => topicsGo topics imp study_duration rest day daily n
    | some questions =>
      let total_minutes := allocated_hours * 60
      let num_sessions :=
        (max 1 (pyInt (total_minutes / (study_duration : ℚ)))).toNat
      let minutes_per_session := total_minutes / (num_sessions : ℚ)
      let topic_questions := pySortDesc (fun q => dget imp q 0) questions
      let questions_per_session :=
        max 1 (topic_questions.length / num_sessions)
      let r := packGo topic_name topic_questions minutes_per_session
        num_sessions questions_per_session imp (List.range num_sessions)
        day daily n
      r.1 ++ topicsGo topics imp study_duration rest r.2.1 r.2.2.1 r.2.2.2

/-- Embedding of `StudyPlannerService._create_study_sessions` (`study_planner.py` lines
154-235). `break_duration` is accepted but, as in the code, never used. -/
def createStudySessions (topics : List (String × List String))
    (topic_hours : List (String × ℚ)) (imp : List (String × ℚ))
    (study_duration : ℕ) (break_duration : ℕ) : List StudySession :=
  topicsGo topics imp study_duration
    (pySortDesc (fun p => p.2) topic_hours) 1 0 0

/-- Embedding of `StudyPlannerService._calculate_topic_importance` (`study_planner.py`
lines 79-106). -/
def calculateTopicImportance (topics : List (String × List String))
    (importance_scores : List (String × ℚ)) : List (String × ℚ) :=
  topics.map fun p =>
    if p.2.isEmpty then (p.1, 0)
    else
      let topic_scores := p.2.map fun q => dget importance_scores q (1/2)
      let avg_score := topic_scores.sum / (topic_scores.length : ℚ)
      let question_weight := min 1 ((p.2.length : ℚ) / 10)
      (p.1, pyRound 3 (7/10 * avg_score + 3/10 * question_weight))

theorem packGo_nil (topic_name : String) (tqs : List String) (mps : ℚ)
    (ns qps : ℕ) (imp : List (String × ℚ)) (day : ℕ) (daily : ℚ) (n : ℕ) :
    packGo topic_name tqs mps ns qps imp [] day daily n
      = ([], day, daily, n) := rfl

/-- Evaluation helper: one step of the packing loop with all intermediate
values supplied explicitly. -/
theorem packGo_cons (topic_name : String) (tqs : List String) (mps : ℚ)
    (ns qps : ℕ) (imp : List (String × ℚ)) (i : ℕ) (rest : List ℕ)
    (day : ℕ) (daily : ℚ) (n : ℕ) (day' : ℕ) (daily' : ℚ)
    (s : StudySession) (r : List StudySession × ℕ × ℚ × ℕ)
    (hday : (if 240 < daily + mps then day + 1 else day) = day')
    (hdaily : (if 240 < daily + mps then (0:ℚ) else daily) + mps = daily')
    (hs : mkSession topic_name mps (sessionChunk tqs ns qps i) imp day' n = s)
    (hr : packGo topic_name tqs mps ns qps imp rest day' daily' (n + 1) = r) :
    packGo topic_name tqs mps ns qps imp (i :: rest) day daily n
      = (s :: r.1, r.2) := by
  rw [packGo]
  simp only [hday, hdaily, hs, hr]

/-- Evaluation helper: one step of the topic loop for a topic present in
the `topics` dict, with all intermediate values supplied explicitly. -/
theorem topicsGo_cons_some (topics : List (String × List String))
    (imp : List (String × ℚ)) (sd : ℕ) (tname : String) (h : ℚ)
    (rest : List (String × ℚ)) (day : ℕ) (daily : ℚ) (n : ℕ)
    (questions : List String) (ns : ℕ) (tqs : List String) (mps : ℚ)
    (qps : ℕ) (r : List StudySession × ℕ × ℚ × ℕ)
    (hlk : List.lookup tname topics = some questions)
    (hns : (max 1 (pyInt (h * 60 / (sd : ℚ)))).toNat = ns)
    (hmps : h * 60 / (ns : ℚ) = mps)
    (htqs : pySortDesc (fun q => dget imp q 0) questions = tqs)
    (hqps : max 1 (tqs.length / ns) = qps)
    (hr : packGo tname tqs mps ns qps imp (List.range ns) day daily n = r) :
    topicsGo topics imp sd ((tname, h) :: rest) day daily n
      = r.1 ++ topicsGo topics imp sd rest r.2.1 r.2.2.1 r.2.2.2 := by
  rw [topicsGo]
  simp only [hlk, hns, hmps, htqs, hqps, hr]

/-- Concrete packer run: one topic `T` holding one question, 20/3 hours
(= 400 minutes) allocated, 200-minute sessions: two 200-minute sessions
are produced, landing on day 1 and day 2. -/
theorem packTwo200_eval :
    createStudySessions [("T", ["q"])] [("T", 20/3)] [] 200 5 =
      [⟨"T", 200, 1/2, ["q"], 1, 0⟩, ⟨"T", 200, 0, [], 2, 1⟩] := by
  have hsort : pySortDesc (fun p => (p : String × ℚ).2) [("T", (20:ℚ)/3)]
      = [("T", (20:ℚ)/3)] := by
    simp [pySortDesc]
  rw [createStudySessions, hsort]
  have hs0 : mkSession "T" 200 (sessionChunk ["q"] 2 1 0) [] 1 0
      = ⟨"T", 200, 1/2, ["q"], 1, 0⟩ := by
    norm_num [mkSession, sessionChunk, dget, List.lookup, pyInt, pyRound,
      rhe, Int.fract, -Int.self_sub_floor]
    decide
  have hs1 : mkSession "T" 200 (sessionChunk ["q"] 2 1 1) [] 2 1
      = ⟨"T", 200, 0, [], 2, 1⟩ := by
    norm_num [mkSession, sessionChunk, dget, List.lookup, pyInt, pyRound,
      rhe, Int.fract, -Int.self_sub_floor]
  have hp1 : packGo "T" ["q"] 200 2 1 [] [1] 1 200 1
      = ([⟨"T", 200, 0, [], 2, 1⟩], 2, 200, 2) := by
    apply packGo_cons _ _ _ _ _ _ _ _ _ _ _ 2 200 _ ([], 2, 200, 2)
    · norm_num
    · norm_num
    · exact hs1
    · exact packGo_nil _ _ _ _ _ _ _ _ _
  have hp0 : packGo "T" ["q"] 200 2 1 [] [0, 1] 1 0 0
      = ([⟨"T", 200, 1/2, ["q"], 1, 0⟩, ⟨"T", 200, 0, [], 2, 1⟩],
          2, 200, 2) := by
    apply packGo_cons _ _ _ _ _ _ _ _ _ _ _ 1 200 _
      ([⟨"T", 200, 0, [], 2, 1⟩], 2, 200, 2)
    · norm_num
    · norm_num
    · exact hs0
    · exact hp1
  have hrange : List.range 2 = [0, 1] := rfl
  have hstep := topicsGo_cons_some [("T", ["q"])] [] 200 "T" (20/3) [] 1 0 0
    ["q"] 2 ["q"] 200 1
    ([⟨"T", 200, 1/2, ["q"], 1, 0⟩, ⟨"T", 200, 0, [], 2, 1⟩], 2, 200, 2)
    (by simp [List.lookup])
    (by norm_num [pyInt]; try decide)
    (by norm_num)
    (by simp [pySortDesc])
    (by decide)
    (by rw [hrange]; exact hp0)
  rw [hstep]
  rw [topicsGo]
  simp

theorem flatten_uniform_chunks {α : Type} (l : List α) (q : ℕ) :
    ∀ m : ℕ,
      ((List.range m).map fun i => (l.drop (i * q)).take q).flatten
        = l.take (m * q) := by
  intro m
  induction m with
  | zero => simp
  | succ k ih =>
    rw [List.range_succ, List.map_append, List.flatten_append]
    simp only [List.map_cons, List.map_nil, List.flatten_cons,
      List.flatten_nil, List.append_nil]
    rw [ih, ← List.take_add]
    congr 1
    ring

/-- Concatenating, in loop order, the question slices taken for the
sessions of one topic recovers the whole (sorted) question list: the
non-final chunks are uniform slices and the final chunk absorbs the
remainder, Python slicing clamping out-of-range indices to the empty
list. -/
theorem sessionChunks_flatten (tqs : List String) (ns qps : ℕ)
    (hns : 1 ≤ ns) :
    ((List.range ns).map fun i => sessionChunk tqs ns qps i).flatten
      = tqs := by
  obtain ⟨k, rfl⟩ : ∃ k, ns = k + 1 := ⟨ns - 1, by omega⟩
  rw [List.range_succ, List.map_append, List.flatten_append]
  simp only [List.map_cons, List.map_nil, List.flatten_cons,
    List.flatten_nil, List.append_nil]
  have hmid : (List.range k).map (fun i => sessionChunk tqs (k + 1) qps i)
      = (List.range k).map fun i => (tqs.drop (i * qps)).take qps := by
    apply List.map_congr_left
    intro i hi
    rw [List.mem_range] at hi
    rw [sessionChunk]
    rw [if_pos (by omega : i < k + 1 - 1)]
    congr 1
    omega
  have hlast : sessionChunk tqs (k + 1) qps k = tqs.drop (k * qps) := by
    rw [sessionChunk]
    rw [if_neg (by omega : ¬ k < k + 1 - 1)]
    apply List.take_of_length_le
    rw [List.length_drop]
  rw [hmid, flatten_uniform_chunks, hlast, List.take_append_drop]

/-- C2 (confirmed): for every topic question list, importance map and
session count `ns ≥ 1`, the concatenation of the per-session question
chunks (contiguous slices of size `max(1, len // ns)`, last chunk taking
the remainder) is exactly the question list sorted by importance
descending; that sorted list is a permutation of the original (every
question exactly once, none dropped, none duplicated), it is pairwise
descending in importance, and any pair already in weakly descending order
in the input (in particular, ties) keeps its relative order. -/
theorem C2_session_coverage (questions : List String)
    (imp : List (String × ℚ)) (ns : ℕ) (hns : 1 ≤ ns) :
    ((List.range ns).map fun i =>
        sessionChunk (pySortDesc (fun q => dget imp q 0) questions) ns
          (max 1 ((pySortDesc (fun q => dget imp q 0) questions).length / ns))
          i).flatten
      = pySortDesc (fun q => dget imp q 0) questions
    ∧ (pySortDesc (fun q => dget imp q 0) questions).Perm questions
    ∧ (pySortDesc (fun q => dget imp q 0) questions).Pairwise
        (fun a b => dget imp b 0 ≤ dget imp a 0)
    ∧ ∀ a b : String, [a, b].Sublist questions →
        dget imp b 0 ≤ dget imp a 0 →
        [a, b].Sublist (pySortDesc (fun q => dget imp q 0) questions) := by
  have htrans : ∀ a b c : String,
      (fun a b => decide (dget imp b 0 ≤ dget imp a 0)) a b →
      (fun a b => decide (dget imp b 0 ≤ dget imp a 0)) b c →
      (fun a b => decide (dget imp b 0 ≤ dget imp a 0)) a c := by
    intro a b c hab hbc
    simp only [decide_eq_true_eq] at hab hbc ⊢
    exact le_trans hbc hab
  have htotal : ∀ a b : String,
      ((fun a b => decide (dget imp b 0 ≤ dget imp a 0)) a b
        || (fun a b => decide (dget imp b 0 ≤ dget imp a 0)) b a) := by
    intro a b
    simp only [Bool.or_eq_true, decide_eq_true_eq]
    exact le_total (dget imp b 0) (dget imp a 0)
  refine ⟨sessionChunks_flatten _ _ _ hns, ?_, ?_, ?_⟩
  · exact List.mergeSort_perm questions _
  · have h := List.sorted_mergeSort htrans htotal questions
    rw [pySortDesc]
    exact h.imp fun hab => of_decide_eq_true hab
  · intro a b hsub hle
    rw [pySortDesc]
    exact List.sublist_mergeSort htrans htotal
      (List.pairwise_pair.mpr (decide_eq_true hle)) hsub

/-- C2 (witness): the coverage property instantiated on a one-question
topic split into two sessions. -/
theorem C2_witness :
    ((List.range 2).map fun i =>
        sessionChunk (pySortDesc (fun q => dget [] q 0) ["a"]) 2
          (max 1 ((pySortDesc (fun q => dget [] q 0) ["a"]).length / 2))
          i).flatten
      = pySortDesc (fun q => dget [] q 0) ["a"] :=
  (C2_session_coverage ["a"] [] 2 (by norm_num)).1

@[simp] theorem mkSession_topic (t : String) (m : ℚ) (qs : List String)
    (imp : List (String × ℚ)) (d n : ℕ) :
    (mkSession t m qs imp d n).topic = t := rfl

@[simp] theorem mkSession_duration (t : String) (m : ℚ) (qs : List String)
    (imp : List (String × ℚ)) (d n : ℕ) :
    (mkSession t m qs imp d n).duration_minutes = pyInt m := rfl

@[simp] theorem mkSession_importance (t : String) (m : ℚ) (qs : List String)
    (imp : List (String × ℚ)) (d n : ℕ) :
    (mkSession t m qs imp d n).importance_score
      = pyRound 3 ((qs.map fun q => dget imp q (1/2)).sum
          / (max qs.length 1 : ℚ)) := rfl

@[simp] theorem mkSession_questions (t : String) (m : ℚ) (qs : List String)
    (imp : List (String × ℚ)) (d n : ℕ) :
    (mkSession t m qs imp d n).questions_to_cover
      = qs.map fun q => q.take 100 := rfl

@[simp] theorem mkSession_day (t : String) (m : ℚ) (qs : List String)
    (imp : List (String × ℚ)) (d n : ℕ) :
    (mkSession t m qs imp d n).day = d := rfl

@[simp] theorem mkSession_seq (t : String) (m : ℚ) (qs : List String)
    (imp : List (String × ℚ)) (d n : ℕ) :
    (mkSession t m qs imp d n).session_number = n := rfl

/-- Unfolding of one step of the packing loop. -/
theorem packGo_cons_eq (topic_name : String) (tqs : List String) (mps : ℚ)
    (ns qps : ℕ) (imp : List (String × ℚ)) (i : ℕ) (rest : List ℕ)
    (day : ℕ) (daily : ℚ) (n : ℕ) :
    packGo topic_name tqs mps ns qps imp (i :: rest) day daily n
      = (mkSession topic_name mps (sessionChunk tqs ns qps i) imp
            (if 240 < daily + mps then day + 1 else day) n
          :: (packGo topic_name tqs mps ns qps imp rest
              (if 240 < daily + mps then day + 1 else day)
              ((if 240 < daily + mps then 0 else daily) + mps) (n + 1)).1,
         (packGo topic_name tqs mps ns qps imp rest
              (if 240 < daily + mps then day + 1 else day)
              ((if 240 < daily + mps then 0 else daily) + mps) (n + 1)).2) := by
  rw [packGo]

/-- C4 (confirmed): before a session is placed, if the running daily total
plus the session's minutes would exceed the 240-minute cap, the day
advances by one and the total resets (first conjunct: the placed session's
day is exactly `day + 1` when the cap would be exceeded and `day`
otherwise; the session is placed whole on that single day). Consequently,
with 200-minute sessions, two consecutively packed sessions always land on
two different days (second conjunct), as the concrete run of
`_create_study_sessions` on a 400-minute topic with `study_duration = 200`
shows (third conjunct: days 1 and 2). -/
theorem C4_day_capping :
    (∀ (tname : String) (tqs : List String) (mps : ℚ) (ns qps : ℕ)
        (imp : List (String × ℚ)) (i : ℕ) (rest : List ℕ) (day : ℕ)
        (daily : ℚ) (n : ℕ),
        ∃ s tl, (packGo tname tqs mps ns qps imp (i :: rest) day daily n).1
            = s :: tl
          ∧ s.day = (if 240 < daily + mps then day + 1 else day))
    ∧ (∀ (tname : String) (tqs : List String) (ns qps : ℕ)
        (imp : List (String × ℚ)) (i j : ℕ) (rest : List ℕ) (day : ℕ)
        (daily : ℚ) (n : ℕ), 0 ≤ daily →
        ∃ s1 s2 tl,
          (packGo tname tqs 200 ns qps imp (i :: j :: rest) day daily n).1
            = s1 :: s2 :: tl ∧ s2.day = s1.day + 1)
    ∧ createStudySessions [("T", ["q"])] [("T", 20/3)] [] 200 5
        = [⟨"T", 200, 1/2, ["q"], 1, 0⟩, ⟨"T", 200, 0, [], 2, 1⟩] := by
  refine ⟨?_, ?_, packTwo200_eval⟩
  · intro tname tqs mps ns qps imp i rest day daily n
    rw [packGo_cons_eq]
    exact ⟨_, _, rfl, mkSession_day _ _ _ _ _ _⟩
  · intro tname tqs ns qps imp i j rest day daily n hd
    rw [packGo_cons_eq, packGo_cons_eq]
    refine ⟨_, _, _, rfl, ?_⟩
    rw [mkSession_day, mkSession_day]
    have hc2 : (240:ℚ) < (if (240:ℚ) < daily + 200 then 0 else daily)
        + 200 + 200 := by
      split_ifs with h1
      · norm_num
      · linarith
    rw [if_pos hc2]

/-- C4 (witness): two consecutive 200-minute sessions packed from a fresh
day state land on consecutive days. -/
theorem C4_witness :
    ((packGo "T" ["q"] 200 2 1 [] [0, 1] 1 0 0).1.getD 1
        ⟨"", 0, 0, [], 0, 0⟩).day
      = ((packGo "T" ["q"] 200 2 1 [] [0, 1] 1 0 0).1.getD 0
          ⟨"", 0, 0, [], 0, 0⟩).day + 1 := by
  obtain ⟨s1, s2, tl, heq, hday⟩ :=
    C4_day_capping.2.1 "T" ["q"] 2 1 [] 0 1 [] 1 0 0 (by norm_num)
  rw [heq]
  simp only [List.getD_cons_succ, List.getD_cons_zero]
  exact hday

/-- Every session packed for one topic carries `int(minutes_per_session)`
as its duration. -/
theorem packGo_duration (tname : String) (tqs : List String) (mps : ℚ)
    (ns qps : ℕ) (imp : List (String × ℚ)) :
    ∀ (is : List ℕ) (day : ℕ) (daily : ℚ) (n : ℕ),
      ∀ s ∈ (packGo tname tqs mps ns qps imp is day daily n).1,
        s.duration_minutes = pyInt mps := by
  intro is
  induction is with
  | nil =>
    intro day daily n s hs
    simp [packGo_nil] at hs
  | cons i rest ih =>
    intro day daily n s hs
    rw [packGo_cons_eq] at hs
    rcases List.mem_cons.mp hs with rfl | hs'
    · exact mkSession_duration _ _ _ _ _ _
    · exact ih _ _ _ s hs'

/-- Every session produced by the packing loops is some `mkSession`. -/
theorem packGo_shape (tname : String) (tqs : List String) (mps : ℚ)
    (ns qps : ℕ) (imp : List (String × ℚ)) :
    ∀ (is : List ℕ) (day : ℕ) (daily : ℚ) (n : ℕ),
      ∀ s ∈ (packGo tname tqs mps ns qps imp is day daily n).1,
        ∃ (qs : List String) (d m : ℕ), s = mkSession tname mps qs imp d m := by
  intro is
  induction is with
  | nil =>
    intro day daily n s hs
    simp [packGo_nil] at hs
  | cons i rest ih =>
    intro day daily n s hs
    rw [packGo_cons_eq] at hs
    rcases List.mem_cons.mp hs with rfl | hs'
    · exact ⟨sessionChunk tqs ns qps i, _, n, rfl⟩
    · exact ih _ _ _ s hs'

theorem topicsGo_shape (topics : List (String × List String))
    (imp : List (String × ℚ)) (sd : ℕ) :
    ∀ (ths : List (String × ℚ)) (day : ℕ) (daily : ℚ) (n : ℕ),
      ∀ s ∈ topicsGo topics imp sd ths day daily n,
        ∃ (t : String) (mp : ℚ) (qs : List String) (d m : ℕ),
          s = mkSession t mp qs imp d m := by
  intro ths
  induction ths with
  | nil =>
    intro day daily n s hs
    simp [topicsGo] at hs
  | cons p rest ih =>
    obtain ⟨tname, h⟩ := p
    intro day daily n s hs
    rw [topicsGo] at hs
    rcases hlk : List.lookup tname topics with _ | questions
    · rw [hlk] at hs
      exact ih _ _ _ s hs
    · rw [hlk] at hs
      simp only at hs
      rcases List.mem_append.mp hs with h1 | h2
      · obtain ⟨qs, d, m, rfl⟩ := packGo_shape _ _ _ _ _ _ _ _ _ _ _ h1
        exact ⟨tname, _, qs, d, m, rfl⟩
      · exact ih _ _ _ s h2

/-- If `1 ≤ sd` and the topic is allocated at least one minute
(`1 ≤ h * 60`), then `int(minutes_per_session) ≥ 1` with
`num_sessions = max(1, int(h*60/sd))` and `mps = h*60/num_sessions`. -/
theorem pyInt_mps_ge_one (h : ℚ) (sd : ℕ) (hh : 1 ≤ h * 60) (hsd : 1 ≤ sd) :
    1 ≤ pyInt (h * 60
      / (((max 1 (pyInt (h * 60 / (sd : ℚ)))).toNat : ℕ) : ℚ)) := by
  have hT0 : (0:ℚ) < h * 60 := by linarith
  have hsdQ : (1:ℚ) ≤ (sd:ℚ) := by exact_mod_cast hsd
  have hsdQ0 : (0:ℚ) < (sd:ℚ) := by linarith
  have hTd0 : 0 ≤ h * 60 / (sd:ℚ) := by positivity
  have hk0 : pyInt (h * 60 / (sd:ℚ)) = ⌊h * 60 / (sd:ℚ)⌋ := by
    rw [pyInt, if_pos hTd0]
  have hfl0 : 0 ≤ ⌊h * 60 / (sd:ℚ)⌋ := Int.floor_nonneg.mpr hTd0
  by_cases hc : ⌊h * 60 / (sd:ℚ)⌋ ≤ 0
  · have hk : ⌊h * 60 / (sd:ℚ)⌋ = 0 := le_antisymm hc hfl0
    rw [hk0, hk]
    norm_num
    rw [pyInt, if_pos (le_of_lt hT0)]
    exact Int.le_floor.mpr (by exact_mod_cast hh)
  · push_neg at hc
    rw [hk0]
    have hmax : max 1 ⌊h * 60 / (sd:ℚ)⌋ = ⌊h * 60 / (sd:ℚ)⌋ :=
      max_eq_right (by omega)
    rw [hmax]
    have hcast : (((⌊h * 60 / (sd:ℚ)⌋.toNat : ℕ)) : ℚ)
        = ((⌊h * 60 / (sd:ℚ)⌋ : ℤ) : ℚ) := by
      have e : (⌊h * 60 / (sd:ℚ)⌋.toNat : ℤ) = ⌊h * 60 / (sd:ℚ)⌋ :=
        Int.toNat_of_nonneg (by omega)
      exact_mod_cast e
    rw [hcast]
    have hkQ : (0:ℚ) < ((⌊h * 60 / (sd:ℚ)⌋ : ℤ) : ℚ) := by exact_mod_cast hc
    have hkle : ((⌊h * 60 / (sd:ℚ)⌋ : ℤ) : ℚ) ≤ h * 60 / (sd:ℚ) :=
      Int.floor_le _
    have hmul : ((⌊h * 60 / (sd:ℚ)⌋ : ℤ) : ℚ) * (sd:ℚ) ≤ h * 60 :=
      (le_div_iff hsdQ0).mp hkle
    have hmps : (sd:ℚ) ≤ h * 60 / ((⌊h * 60 / (sd:ℚ)⌋ : ℤ) : ℚ) := by
      rw [le_div_iff hkQ]
      nlinarith
    have h1T : (1:ℚ) ≤ h * 60 / ((⌊h * 60 / (sd:ℚ)⌋ : ℤ) : ℚ) :=
      le_trans hsdQ hmps
    rw [pyInt, if_pos (by positivity)]
    exact Int.le_floor.mpr (by exact_mod_cast h1T)

theorem topicsGo_duration (topics : List (String × List String))
    (imp : List (String × ℚ)) (sd : ℕ) (hsd : 1 ≤ sd) :
    ∀ (ths : List (String × ℚ)), (∀ p ∈ ths, 1/60 ≤ p.2) →
      ∀ (day : ℕ) (daily : ℚ) (n : ℕ),
        ∀ s ∈ topicsGo topics imp sd ths day daily n,
          1 ≤ s.duration_minutes := by
  intro ths
  induction ths with
  | nil =>
    intro _ day daily n s hs
    simp [topicsGo] at hs
  | cons p rest ih =>
    obtain ⟨tname, h⟩ := p
    intro hbound day daily n s hs
    rw [topicsGo] at hs
    rcases hlk : List.lookup tname topics with _ | questions
    · rw [hlk] at hs
      exact ih (fun q hq => hbound q (List.mem_cons_of_mem _ hq)) _ _ _ s hs
    · rw [hlk] at hs
      simp only at hs
      rcases List.mem_append.mp hs with h1 | h2
      · have hdur := packGo_duration _ _ _ _ _ _ _ _ _ _ _ h1
        rw [hdur]
        apply pyInt_mps_ge_one h sd _ hsd
        have := hbound (tname, h) (List.mem_cons_self _ _)
        simp only at this
        linarith
      · exact ih (fun q hq => hbound q (List.mem_cons_of_mem _ hq)) _ _ _ s h2

/-- Concrete packer run on a topic allocated 0 hours: a single session of
duration 0 minutes is produced. -/
theorem packZero_eval :
    createStudySessions [("T", ["q"])] [("T", 0)] [] 25 5
      = [⟨"T", 0, 1/2, ["q"], 1, 0⟩] := by
  have hsort : pySortDesc (fun p => (p : String × ℚ).2) [("T", (0:ℚ))]
      = [("T", (0:ℚ))] := by
    simp [pySortDesc]
  rw [createStudySessions, hsort]
  have hs0 : mkSession "T" 0 (sessionChunk ["q"] 1 1 0) [] 1 0
      = ⟨"T", 0, 1/2, ["q"], 1, 0⟩ := by
    norm_num [mkSession, sessionChunk, dget, List.lookup, pyInt, pyRound,
      rhe, Int.fract, -Int.self_sub_floor]
    decide
  have hp : packGo "T" ["q"] 0 1 1 [] [0] 1 0 0
      = ([⟨"T", 0, 1/2, ["q"], 1, 0⟩], 1, 0, 1) := by
    apply packGo_cons _ _ _ _ _ _ _ _ _ _ _ 1 0 _ ([], 1, 0, 1)
    · norm_num
    · norm_num
    · exact hs0
    · exact packGo_nil _ _ _ _ _ _ _ _ _
  have hrange : List.range 1 = [0] := rfl
  have hstep := topicsGo_cons_some [("T", ["q"])] [] 25 "T" 0 [] 1 0 0
    ["q"] 1 ["q"] 0 1 ([⟨"T", 0, 1/2, ["q"], 1, 0⟩], 1, 0, 1)
    (by simp [List.lookup])
    (by norm_num [pyInt]; try decide)
    (by norm_num)
    (by simp [pySortDesc])
    (by decide)
    (by rw [hrange]; exact hp)
  rw [hstep]
  rw [topicsGo]
  simp

/-- C5 (counterexample): a topic allocated 0 hours (a value the claim
explicitly allows) yields a session whose `duration_minutes` is 0, below
the claimed minimum of 1. -/
theorem C5_counterexample :
    createStudySessions [("T", ["q"])] [("T", 0)] [] 25 5
      = [⟨"T", 0, 1/2, ["q"], 1, 0⟩]
    ∧ ¬ 1 ≤ ((createStudySessions [("T", ["q"])] [("T", 0)] [] 25 5).headD
        ⟨"", 0, 0, [], 0, 0⟩).duration_minutes := by
  refine ⟨packZero_eval, ?_⟩
  rw [packZero_eval]
  norm_num

/-- C5 (amended): every session produced by the packer has
`duration_minutes ≥ 1` provided `study_duration ≥ 1` and every topic's
allocated hours amount to at least one minute (`hours ≥ 1/60`). Topics
allocated less than a minute (e.g. exactly 0 hours) produce sessions with
`int(minutes_per_session) = 0`, so the claimed bound fails without that
premise. -/
theorem C5_duration_bound (topics : List (String × List String))
    (topic_hours imp : List (String × ℚ)) (sd bd : ℕ) (hsd : 1 ≤ sd)
    (hth : ∀ p ∈ topic_hours, 1/60 ≤ p.2) :
    ∀ s ∈ createStudySessions topics topic_hours imp sd bd,
      1 ≤ s.duration_minutes := by
  intro s hs
  rw [createStudySessions] at hs
  apply topicsGo_duration topics imp sd hsd
    (pySortDesc (fun p => p.2) topic_hours) ?_ 1 0 0 s hs
  intro p hp
  apply hth
  rw [pySortDesc] at hp
  exact List.mem_mergeSort.mp hp

/-- C5 (witness): the amended bound on the 400-minute/200-minute concrete
run, whose first session lasts 200 minutes. -/
theorem C5_witness :
    1 ≤ ((createStudySessions [("T", ["q"])] [("T", 20/3)] [] 200 5).headD
        ⟨"", 0, 0, [], 0, 0⟩).duration_minutes := by
  apply C5_duration_bound [("T", ["q"])] [("T", 20/3)] [] 200 5
    (by norm_num) ?_
  · rw [packTwo200_eval]
    simp
  · intro p hp
    simp only [List.mem_singleton] at hp
    rw [hp]
    norm_num

/-- C6 (counterexample): in the 400-minute/200-minute run, the second
session receives no questions and its `importance_score` is 0 — not the
0.5 default the claim states. -/
theorem C6_counterexample :
    ((createStudySessions [("T", ["q"])] [("T", 20/3)] [] 200 5).getD 1
        ⟨"", 0, 0, [], 0, 0⟩).questions_to_cover = []
    ∧ ((createStudySessions [("T", ["q"])] [("T", 20/3)] [] 200 5).getD 1
        ⟨"", 0, 0, [], 0, 0⟩).importance_score = 0
    ∧ ¬ ((createStudySessions [("T", ["q"])] [("T", 20/3)] [] 200 5).getD 1
        ⟨"", 0, 0, [], 0, 0⟩).importance_score = 1/2 := by
  refine ⟨?_, ?_, ?_⟩ <;> rw [packTwo200_eval] <;>
    simp only [List.getD_cons_succ, List.getD_cons_zero] <;> norm_num

/-- C6 (amended): every session's `importance_score` is the 3-decimal
rounding of the mean of its assigned questions' importance values (each
defaulting to 0.5 when absent from the importance map), and a session with
no assigned questions gets importance `0.0` — not 0.5 — because the code
computes `sum([]) / max(0, 1) = 0`. -/
theorem C6_session_importance (topics : List (String × List String))
    (topic_hours imp : List (String × ℚ)) (sd bd : ℕ) :
    ∀ s ∈ createStudySessions topics topic_hours imp sd bd,
      (∃ qs : List String,
          s.questions_to_cover = qs.map (fun q => q.take 100)
          ∧ s.importance_score
              = pyRound 3 ((qs.map fun q => dget imp q (1/2)).sum
                  / (max qs.length 1 : ℚ)))
      ∧ (s.questions_to_cover = [] → s.importance_score = 0) := by
  intro s hs
  rw [createStudySessions] at hs
  obtain ⟨t, mp, qs, d, m, rfl⟩ := topicsGo_shape topics imp sd _ 1 0 0 s hs
  constructor
  · exact ⟨qs, rfl, rfl⟩
  · intro hempty
    rw [mkSession_questions] at hempty
    have hqs : qs = [] := by
      cases qs with
      | nil => rfl
      | cons a l => simp at hempty
    rw [mkSession_importance, hqs]
    norm_num [pyRound, rhe]

/-- C6 (witness): applying the amended statement to the empty second
session of the 400-minute/200-minute run gives importance 0. -/
theorem C6_witness :
    ((createStudySessions [("T", ["q"])] [("T", 20/3)] [] 200 5).getD 1
        ⟨"", 0, 0, [], 0, 0⟩).importance_score = 0 := by
  have h := C6_session_importance [("T", ["q"])] [("T", 20/3)] [] 200 5
    ((createStudySessions [("T", ["q"])] [("T", 20/3)] [] 200 5).getD 1
      ⟨"", 0, 0, [], 0, 0⟩) ?_
  · apply h.2
    rw [packTwo200_eval]
    simp only [List.getD_cons_succ, List.getD_cons_zero]
  · rw [packTwo200_eval]
    simp only [List.getD_cons_succ, List.getD_cons_zero]
    simp

/-- The relation between consecutive sessions forced by the packer: days
never decrease and never jump by more than one. -/
def dayStep (a b : StudySession) : Prop := a.day ≤ b.day ∧ b.day ≤ a.day + 1

/-- Day-number invariant of the inner packing loop: the produced block is a
`dayStep`-chain, its head lies in `[day, day + 1]`, its last session's day
is the final day of the state, an empty block leaves the day unchanged,
and the day never decreases. -/
theorem packGo_day_inv (tname : String) (tqs : List String) (mps : ℚ)
    (ns qps : ℕ) (imp : List (String × ℚ)) :
    ∀ (is : List ℕ) (day : ℕ) (daily : ℚ) (n : ℕ),
      List.Chain' dayStep (packGo tname tqs mps ns qps imp is day daily n).1
      ∧ (∀ s ∈ (packGo tname tqs mps ns qps imp is day daily n).1.head?,
          day ≤ s.day ∧ s.day ≤ day + 1)
      ∧ (∀ s ∈ (packGo tname tqs mps ns qps imp is day daily n).1.getLast?,
          s.day = (packGo tname tqs mps ns qps imp is day daily n).2.1)
      ∧ ((packGo tname tqs mps ns qps imp is day daily n).1 = [] →
          (packGo tname tqs mps ns qps imp is day daily n).2.1 = day)
      ∧ day ≤ (packGo tname tqs mps ns qps imp is day daily n).2.1 := by
  intro is
  induction is with
  | nil =>
    intro day daily n
    rw [packGo_nil]
    refine ⟨List.chain'_nil, ?_, ?_, fun _ => rfl, le_refl day⟩
    · intro s hs
      simp at hs
    · intro s hs
      simp at hs
  | cons i rest ih =>
    intro day daily n
    rw [packGo_cons_eq]
    set day' := if 240 < daily + mps then day + 1 else day with hday'
    have hdd : day ≤ day' ∧ day' ≤ day + 1 := by
      rw [hday']
      split_ifs <;> omega
    obtain ⟨ihc, ihh, ihl, ihe, ihd⟩ :=
      ih day' ((if 240 < daily + mps then 0 else daily) + mps) (n + 1)
    refine ⟨?_, ?_, ?_, ?_, ?_⟩
    · rw [List.chain'_cons']
      refine ⟨?_, ihc⟩
      intro b hb
      have hint := ihh b hb
      rw [dayStep, mkSession_day]
      omega
    · intro s hs
      simp only [List.head?_cons, Option.mem_def, Option.some.injEq] at hs
      rw [← hs, mkSession_day]
      omega
    · intro s hs
      rcases hre : (packGo tname tqs mps ns qps imp rest day'
          ((if 240 < daily + mps then 0 else daily) + mps) (n + 1)).1 with
        _ | ⟨b, t⟩
      · rw [hre] at hs
        simp only [List.getLast?_singleton, Option.mem_def,
          Option.some.injEq] at hs
        rw [← hs, mkSession_day]
        exact (ihe hre).symm
      · rw [hre] at hs
        rw [List.getLast?_cons_cons] at hs
        have := ihl s
        rw [hre] at this
        exact this hs
    · intro hcon
      simp at hcon
    · exact le_trans hdd.1 ihd

/-- Day-number invariant of the whole topic loop: the full session list is
a `dayStep`-chain whose first session lies in `[day, day + 1]`. -/
theorem topicsGo_day_inv (topics : List (String × List String))
    (imp : List (String × ℚ)) (sd : ℕ) :
    ∀ (ths : List (String × ℚ)) (day : ℕ) (daily : ℚ) (n : ℕ),
      List.Chain' dayStep (topicsGo topics imp sd ths day daily n)
      ∧ ∀ s ∈ (topicsGo topics imp sd ths day daily n).head?,
          day ≤ s.day ∧ s.day ≤ day + 1 := by
  intro ths
  induction ths with
  | nil =>
    intro day daily n
    rw [topicsGo]
    refine ⟨List.chain'_nil, ?_⟩
    intro s hs
    simp at hs
  | cons p rest ih =>
    obtain ⟨tname, h⟩ := p
    intro day daily n
    rw [topicsGo]
    rcases hlk : List.lookup tname topics with _ | questions
    · exact ih day daily n
    · simp only
      obtain ⟨pc, ph, pl, pe, pd⟩ := packGo_day_inv tname
        (pySortDesc (fun q => dget imp q 0) questions)
        (h * 60 / (((max 1 (pyInt (h * 60 / (sd : ℚ)))).toNat : ℕ) : ℚ))
        ((max 1 (pyInt (h * 60 / (sd : ℚ)))).toNat)
        (max 1 ((pySortDesc (fun q => dget imp q 0) questions).length
          / (max 1 (pyInt (h * 60 / (sd : ℚ)))).toNat))
        imp (List.range (max 1 (pyInt (h * 60 / (sd : ℚ)))).toNat)
        day daily n
      obtain ⟨rc, rh⟩ := ih _ _ _
      constructor
      · rw [List.chain'_append]
        refine ⟨pc, rc, ?_⟩
        intro x hx y hy
        have hxday := pl x hx
        have hyday := rh y hy
        rw [dayStep, hxday]
        omega
      · intro s hs
        rcases hre : (packGo tname
            (pySortDesc (fun q => dget imp q 0) questions)
            (h * 60 / (((max 1 (pyInt (h * 60 / (sd : ℚ)))).toNat : ℕ) : ℚ))
            ((max 1 (pyInt (h * 60 / (sd : ℚ)))).toNat)
            (max 1 ((pySortDesc (fun q => dget imp q 0) questions).length
              / (max 1 (pyInt (h * 60 / (sd : ℚ)))).toNat))
            imp (List.range (max 1 (pyInt (h * 60 / (sd : ℚ)))).toNat)
            day daily n).1 with _ | ⟨b, t⟩
        · rw [hre] at hs
          simp only [List.nil_append] at hs
          have hstart := pe hre
          have := rh s hs
          omega
        · rw [hre] at hs
          simp only [List.cons_append, List.head?_cons, Option.mem_def,
            Option.some.injEq] at hs
          have hb := ph b
          rw [hre] at hb
          simp only [List.head?_cons, Option.mem_def, Option.some.injEq]
            at hb
          have := hb trivial
          rw [← hs]
          omega

/-- Concrete packer run with a single 300-minute session: the cap check
`0 + 300 > 240` fires before anything is placed, so the very first session
already lands on day 2. -/
theorem packOversize_eval :
    createStudySessions [("T", ["q"])] [("T", 5)] [] 300 5
      = [⟨"T", 300, 1/2, ["q"], 2, 0⟩] := by
  have hsort : pySortDesc (fun p => (p : String × ℚ).2) [("T", (5:ℚ))]
      = [("T", (5:ℚ))] := by
    simp [pySortDesc]
  rw [createStudySessions, hsort]
  have hs0 : mkSession "T" 300 (sessionChunk ["q"] 1 1 0) [] 2 0
      = ⟨"T", 300, 1/2, ["q"], 2, 0⟩ := by
    norm_num [mkSession, sessionChunk, dget, List.lookup, pyInt, pyRound,
      rhe, Int.fract, -Int.self_sub_floor]
    decide
  have hp : packGo "T" ["q"] 300 1 1 [] [0] 1 0 0
      = ([⟨"T", 300, 1/2, ["q"], 2, 0⟩], 2, 300, 1) := by
    apply packGo_cons _ _ _ _ _ _ _ _ _ _ _ 2 300 _ ([], 2, 300, 1)
    · norm_num
    · norm_num
    · exact hs0
    · exact packGo_nil _ _ _ _ _ _ _ _ _
  have hrange : List.range 1 = [0] := rfl
  have hstep := topicsGo_cons_some [("T", ["q"])] [] 300 "T" 5 [] 1 0 0
    ["q"] 1 ["q"] 300 1 ([⟨"T", 300, 1/2, ["q"], 2, 0⟩], 2, 300, 1)
    (by simp [List.lookup])
    (by norm_num [pyInt]; try decide)
    (by norm_num)
    (by simp [pySortDesc])
    (by decide)
    (by rw [hrange]; exact hp)
  rw [hstep]
  rw [topicsGo]
  simp

/-- C10 (counterexample): when the first session alone exceeds the
240-minute cap (300-minute session), the cap check fires before the first
placement and the first session's day is 2, not 1. -/
theorem C10_counterexample :
    createStudySessions [("T", ["q"])] [("T", 5)] [] 300 5
      = [⟨"T", 300, 1/2, ["q"], 2, 0⟩]
    ∧ ¬ ((createStudySessions [("T", ["q"])] [("T", 5)] [] 300 5).headD
        ⟨"", 0, 0, [], 0, 0⟩).day = 1 := by
  refine ⟨packOversize_eval, ?_⟩
  rw [packOversize_eval]
  simp

/-- C10 (amended): in every session list returned by the packer, day
numbers are non-decreasing and increase by at most 1 between consecutive
sessions; the first session's day is 1 or 2 (2 exactly when the first
session's own minutes already exceed the 240-minute cap, as the
counterexample shows — so "first day = 1" does not hold in general). -/
theorem C10_day_monotonic (topics : List (String × List String))
    (topic_hours imp : List (String × ℚ)) (sd bd : ℕ) :
    List.Chain' dayStep (createStudySessions topics topic_hours imp sd bd)
    ∧ ∀ s ∈ (createStudySessions topics topic_hours imp sd bd).head?,
        s.day = 1 ∨ s.day = 2 := by
  obtain ⟨hc, hh⟩ := topicsGo_day_inv topics imp sd
    (pySortDesc (fun p => p.2) topic_hours) 1 0 0
  rw [createStudySessions]
  refine ⟨hc, ?_⟩
  intro s hs
  have := hh s hs
  omega

/-- C10 (witness): the amended first-day property on the oversized-session
run (where the first day is in fact 2). -/
theorem C10_witness :
    ((createStudySessions [("T", ["q"])] [("T", 5)] [] 300 5).headD
        ⟨"", 0, 0, [], 0, 0⟩).day = 1
    ∨ ((createStudySessions [("T", ["q"])] [("T", 5)] [] 300 5).headD
        ⟨"", 0, 0, [], 0, 0⟩).day = 2 := by
  apply (C10_day_monotonic [("T", ["q"])] [("T", 5)] [] 300 5).2
  rw [packOversize_eval]
  simp

/-- Embedding of `StudyPlannerService.predict_important_questions` (`study_planner.py`
lines 237-266): pair each question with its score (default 0.0), stable
sort descending, truncate to `top_n`. -/
def predictImportantQuestions (questions : List String)
    (importance_scores : List (String × ℚ)) (top_n : ℕ) :
    List (String × ℚ) :=
  (pySortDesc (fun p => p.2)
    (questions.map fun q => (q, dget importance_scores q 0))).take top_n

/-- C8 (confirmed): `predict_important_questions` returns the scored
questions sorted by importance descending (stable, so ties and already
weakly ordered pairs keep their input order) truncated to the first
`top_n`; its length is `min top_n (number of questions)`, so fewer than
`top_n` questions are returned without error when not enough exist. -/
theorem C8_predict_top_questions (questions : List String)
    (imp : List (String × ℚ)) (top_n : ℕ) :
    predictImportantQuestions questions imp top_n
      = (pySortDesc (fun p => (p : String × ℚ).2)
          (questions.map fun q => (q, dget imp q 0))).take top_n
    ∧ (predictImportantQuestions questions imp top_n).length
        = min top_n questions.length
    ∧ (pySortDesc (fun p => (p : String × ℚ).2)
        (questions.map fun q => (q, dget imp q 0))).Perm
        (questions.map fun q => (q, dget imp q 0))
    ∧ (pySortDesc (fun p => (p : String × ℚ).2)
        (questions.map fun q => (q, dget imp q 0))).Pairwise
        (fun a b => b.2 ≤ a.2)
    ∧ ∀ a b : String × ℚ,
        [a, b].Sublist (questions.map fun q => (q, dget imp q 0)) →
        b.2 ≤ a.2 →
        [a, b].Sublist (pySortDesc (fun p => (p : String × ℚ).2)
          (questions.map fun q => (q, dget imp q 0))) := by
  have htrans : ∀ a b c : String × ℚ,
      (fun a b : String × ℚ => decide (b.2 ≤ a.2)) a b →
      (fun a b : String × ℚ => decide (b.2 ≤ a.2)) b c →
      (fun a b : String × ℚ => decide (b.2 ≤ a.2)) a c := by
    intro a b c hab hbc
    simp only [decide_eq_true_eq] at hab hbc ⊢
    exact le_trans hbc hab
  have htotal : ∀ a b : String × ℚ,
      ((fun a b : String × ℚ => decide (b.2 ≤ a.2)) a b
        || (fun a b : String × ℚ => decide (b.2 ≤ a.2)) b a) := by
    intro a b
    simp only [Bool.or_eq_true, decide_eq_true_eq]
    exact le_total b.2 a.2
  refine ⟨rfl, ?_, ?_, ?_, ?_⟩
  · rw [predictImportantQuestions, List.length_take, pySortDesc,
      List.length_mergeSort, List.length_map]
  · exact List.mergeSort_perm _ _
  · have h := List.sorted_mergeSort htrans htotal
      (questions.map fun q => (q, dget imp q 0))
    rw [pySortDesc]
    exact h.imp fun hab => of_decide_eq_true hab
  · intro a b hsub hle
    rw [pySortDesc]
    exact List.sublist_mergeSort htrans htotal
      (List.pairwise_pair.mpr (decide_eq_true hle)) hsub

/-- C8 (witness): with two questions and `top_n = 5`, the result has
`min 5 2 = 2` entries. -/
theorem C8_witness :
    (predictImportantQuestions ["a", "b"] [] 5).length
      = min 5 (["a", "b"] : List String).length :=
  (C8_predict_top_questions ["a", "b"] [] 5).2.1

/-- The `StudyScheduleResponse` pydantic model (`app/models/schemas.py`
lines 86-93); dates are carried as already-rendered optional strings. -/
structure StudyScheduleResponse where
  total_hours : ℚ
  total_sessions : ℕ
  sessions : List StudySession
  topic_distribution : List (String × ℚ)
  start_date : Option String
  exam_date : Option String
deriving DecidableEq, Repr

/-- Embedding of `StudyPlannerService.generate_schedule` (`study_planner.py` lines
17-77): aggregate topic importance, allocate hours, pack sessions, then
assemble totals. -/
def generateSchedule (topics : List (String × List String))
    (importance_scores : List (String × ℚ)) (available_hours : ℚ)
    (study_duration break_duration : ℕ)
    (start_date exam_date : Option String) : StudyScheduleResponse :=
  let topic_importance := calculateTopicImportance topics importance_scores
  let topic_hours := allocateTimeToTopics topic_importance available_hours
  let sessions := createStudySessions topics topic_hours importance_scores
    study_duration break_duration
  let total_study_time :=
    ((sessions.map fun s => (s.duration_minutes : ℚ)).sum) / 60
  { total_hours := pyRound 2 total_study_time
    total_sessions := sessions.length
    sessions := sessions
    topic_distribution := topic_hours
    start_date := start_date
    exam_date := exam_date }

/-- C9 (confirmed): the pipeline is a pure function of its inputs — two
runs on componentwise-identical inputs (same insertion order of the maps)
agree on the whole schedule and in particular on the session list, the
topic distribution and the total hours. The embedding is deterministic
because the code consults no randomness, clock, or unordered iteration:
every step is a fold over insertion-ordered dicts or a stable sort. -/
theorem C9_determinism (t1 t2 : List (String × List String))
    (i1 i2 : List (String × ℚ)) (h1 h2 : ℚ) (sd1 sd2 bd1 bd2 : ℕ)
    (s1 s2 e1 e2 : Option String)
    (ht : t1 = t2) (hi : i1 = i2) (hh : h1 = h2) (hsd : sd1 = sd2)
    (hbd : bd1 = bd2) (hs : s1 = s2) (he : e1 = e2) :
    generateSchedule t1 i1 h1 sd1 bd1 s1 e1
      = generateSchedule t2 i2 h2 sd2 bd2 s2 e2
    ∧ (generateSchedule t1 i1 h1 sd1 bd1 s1 e1).sessions
        = (generateSchedule t2 i2 h2 sd2 bd2 s2 e2).sessions
    ∧ (generateSchedule t1 i1 h1 sd1 bd1 s1 e1).topic_distribution
        = (generateSchedule t2 i2 h2 sd2 bd2 s2 e2).topic_distribution
    ∧ (generateSchedule t1 i1 h1 sd1 bd1 s1 e1).total_hours
        = (generateSchedule t2 i2 h2 sd2 bd2 s2 e2).total_hours := by
  subst ht hi hh hsd hbd hs he
  exact ⟨rfl, rfl, rfl, rfl⟩

/-- C9 (witness): determinism instantiated on a concrete input. -/
theorem C9_witness :
    generateSchedule [("T", ["q"])] [("q", 1/2)] 1 25 5 none none
      = generateSchedule [("T", ["q"])] [("q", 1/2)] 1 25 5 none none :=
  (C9_determinism [("T", ["q"])] [("T", ["q"])] [("q", 1/2)] [("q", 1/2)]
    1 1 25 25 5 5 none none none none
    rfl rfl rfl rfl rfl rfl rfl).1

/-- One `frequency_map[key] += v` update on the insertion-ordered dict used
by `calculate_importance_scores` (a missing key is appended with value
`v`, matching `defaultdict(int)` insertion order). -/
def bumpFreq (m : List (String × ℕ)) (k : String) (v : ℕ) :
    List (String × ℕ) :=
  match m with
  | [] => [(k, v)]
  | (k', v') :: rest =>
    if k' == k then (k', v' + v) :: rest else (k', v') :: bumpFreq rest k v

/-- The frequency-map loop of `calculate_importance_scores`
(`nlp_service.py` lines 364-368): for each similar-question group, each
member question's count grows by the group size. The groups themselves
come from the embedding-based `detect_similar_questions`, an upstream
oracle outside the planning core, so they are taken as an input here; the
code only ever passes in-range indices, modelled by `getD` with a dummy
default. -/
def buildFrequencyMap (questions : List String) (groups : List (List ℕ)) :
    List (String × ℕ) :=
  groups.foldl (fun m g =>
    g.foldl (fun mm idx => bumpFreq mm (questions.getD idx "") g.length) m)
    []

/-- Python `max(frequency_map.values()) if frequency_map else 1`
(`nlp_service.py` line 371). -/
def maxFreq (m : List (String × ℕ)) : ℕ :=
  if m.isEmpty then 1 else (m.map fun p => p.2).foldl max 0

/-- Python `frequency_map.get(question, 1)`. -/
def ngetD (m : List (String × ℕ)) (k : String) (d : ℕ) : ℕ :=
  (List.lookup k m).getD d

/-- The topic-centrality score of one question (`nlp_service.py` lines
385-391): the first topic containing the question scores
`min(1, len(topic_qs) / (len(questions) / len(topics)))`, defaulting to
0.5 when no topic contains it. -/
def topicScore (topics : List (String × List String))
    (questions : List String) (q : String) : ℚ :=
  match topics.find? (fun p => p.2.contains q) with
  | none => 1/2
  | some p => min 1 ((p.2.length : ℚ)
      / ((questions.length : ℚ) / (topics.length : ℚ)))

/-- The recency score of the question at position `i` (`nlp_service.py`
lines 378-383): with a truthy year present, `max(0, 1 - (2025 - year)/10)`
(the code hard-codes `current_year = 2025`), else the 0.5 default. -/
def recencyScore (years : Option (List ℕ)) (i : ℕ) : ℚ :=
  match years with
  | none => 1/2
  | some ys =>
    if i < ys.length ∧ ys.getD i 0 ≠ 0 then
      max 0 (1 - ((2025 - (ys.getD i 0 : ℤ) : ℤ) : ℚ) / 10)
    else 1/2

/-- Embedding of `NLPService.calculate_importance_scores` (`nlp_service.py` lines
343-401), scoring loop: `0.4 * freq + 0.3 * recency + 0.3 * topic`,
rounded to 3 decimals, one entry per question in input order. -/
def calculateImportanceScores (questions : List String)
    (topics : List (String × List String)) (years : Option (List ℕ))
    (similar_groups : List (List ℕ)) : List (String × ℚ) :=
  let frequency_map := buildFrequencyMap questions similar_groups
  let max_freq := maxFreq frequency_map
  questions.enum.map fun iq =>
    let freq_score : ℚ := (ngetD frequency_map iq.2 1 : ℚ) / (max_freq : ℚ)
    let recency_score := recencyScore years iq.1
    let t_score := topicScore topics questions iq.2
    (iq.2, pyRound 3 (2/5 * freq_score + 3/10 * recency_score
      + 3/10 * t_score))

/-- Concrete scorer run with a future year 2036: recency is
`1 + 11/10 = 2.1` and the combined score is 1.33. -/
theorem calcFutureYear_eval :
    calculateImportanceScores ["q"] [("T", ["q"])] (some [2036]) []
      = [("q", 133/100)] := by
  norm_num [calculateImportanceScores, buildFrequencyMap, maxFreq, ngetD,
    recencyScore, topicScore, List.enum, List.enumFrom, List.lookup,
    List.find?, pyRound, rhe, Int.fract, -Int.self_sub_floor]

/-- Concrete scorer run with no year data and no topic match: the score is
`0.4 * 1 + 0.3 * 0.5 + 0.3 * 0.5 = 0.7`. -/
theorem calcNoYears_eval :
    calculateImportanceScores ["q"] [] none [] = [("q", 7/10)] := by
  norm_num [calculateImportanceScores, buildFrequencyMap, maxFreq, ngetD,
    recencyScore, topicScore, List.enum, List.enumFrom, List.lookup,
    List.find?, pyRound, rhe, Int.fract, -Int.self_sub_floor]

theorem bumpFreq_pos (k : String) (v : ℕ) (hv : 1 ≤ v) :
    ∀ (m : List (String × ℕ)), (∀ p ∈ m, 1 ≤ p.2) →
      ∀ p ∈ bumpFreq m k v, 1 ≤ p.2 := by
  intro m
  induction m with
  | nil =>
    intro _ p hp
    rw [bumpFreq] at hp
    simp only [List.mem_singleton] at hp
    rw [hp]
    exact hv
  | cons a rest ih =>
    obtain ⟨k', v'⟩ := a
    intro hm p hp
    rw [bumpFreq] at hp
    split_ifs at hp with hk
    · rcases List.mem_cons.mp hp with rfl | hp'
      · have := hm (k', v') (List.mem_cons_self _ _)
        simp only at this ⊢
        omega
      · exact hm p (List.mem_cons_of_mem _ hp')
    · rcases List.mem_cons.mp hp with rfl | hp'
      · exact hm (k', v') (List.mem_cons_self _ _)
      · exact ih (fun q hq => hm q (List.mem_cons_of_mem _ hq)) p hp'

theorem freqFold_pos (questions : List String) (v : ℕ) (hv : 1 ≤ v) :
    ∀ (is : List ℕ) (m : List (String × ℕ)), (∀ p ∈ m, 1 ≤ p.2) →
      ∀ p ∈ is.foldl
          (fun mm idx => bumpFreq mm (questions.getD idx "") v) m,
        1 ≤ p.2 := by
  intro is
  induction is with
  | nil =>
    intro m hm p hp
    rw [List.foldl_nil] at hp
    exact hm p hp
  | cons i rest ih =>
    intro m hm p hp
    rw [List.foldl_cons] at hp
    exact ih _ (bumpFreq_pos _ v hv m hm) p hp

theorem buildFreq_vals_pos (questions : List String)
    (groups : List (List ℕ)) :
    ∀ p ∈ buildFrequencyMap questions groups, 1 ≤ p.2 := by
  rw [buildFrequencyMap]
  have main : ∀ (gs : List (List ℕ)) (m : List (String × ℕ)),
      (∀ p ∈ m, 1 ≤ p.2) →
      ∀ p ∈ gs.foldl (fun m g =>
          g.foldl (fun mm idx =>
            bumpFreq mm (questions.getD idx "") g.length) m) m,
        1 ≤ p.2 := by
    intro gs
    induction gs with
    | nil =>
      intro m hm p hp
      rw [List.foldl_nil] at hp
      exact hm p hp
    | cons g rest ih =>
      intro m hm p hp
      rw [List.foldl_cons] at hp
      apply ih _ ?_ p hp
      cases g with
      | nil => exact hm
      | cons i t =>
        exact freqFold_pos questions (i :: t).length (by simp) (i :: t) m hm
  intro p hp
  exact main groups [] (by simp) p hp

theorem foldl_max_init (l : List ℕ) : ∀ init : ℕ, init ≤ l.foldl max init := by
  induction l with
  | nil => intro init; simp
  | cons a t ih =>
    intro init
    rw [List.foldl_cons]
    exact le_trans (le_max_left init a) (ih _)

theorem mem_le_foldl_max (l : List ℕ) :
    ∀ a ∈ l, ∀ init : ℕ, a ≤ l.foldl max init := by
  induction l with
  | nil => intro a ha; simp at ha
  | cons b t ih =>
    intro a ha init
    rw [List.foldl_cons]
    rcases List.mem_cons.mp ha with rfl | ha'
    · exact le_trans (le_max_right init a) (foldl_max_init t _)
    · exact ih a ha' _

theorem lookup_val_mem (k : String) :
    ∀ (m : List (String × ℕ)) (v : ℕ), List.lookup k m = some v →
      v ∈ m.map fun p => p.2 := by
  intro m
  induction m with
  | nil =>
    intro v hv
    simp [List.lookup] at hv
  | cons a rest ih =>
    obtain ⟨k', v'⟩ := a
    intro v hv
    rw [List.lookup] at hv
    rcases hk : (k == k') with _ | _
    · rw [hk] at hv
      exact List.mem_cons_of_mem _ (ih v hv)
    · rw [hk] at hv
      simp only [Option.some.injEq] at hv
      rw [← hv]
      exact List.mem_cons_self _ _

theorem one_le_maxFreq (m : List (String × ℕ)) (hm : ∀ p ∈ m, 1 ≤ p.2) :
    1 ≤ maxFreq m := by
  rw [maxFreq]
  cases m with
  | nil => simp
  | cons a t =>
    simp only [List.isEmpty_cons, Bool.false_eq_true, if_false]
    have ha : 1 ≤ a.2 := hm a (List.mem_cons_self _ _)
    have : a.2 ∈ (a :: t).map fun p => p.2 := by
      simp
    exact le_trans ha (mem_le_foldl_max _ _ this 0)

theorem ngetD_le_maxFreq (m : List (String × ℕ)) (k : String)
    (hm : ∀ p ∈ m, 1 ≤ p.2) : ngetD m k 1 ≤ maxFreq m := by
  rw [ngetD]
  rcases hlk : List.lookup k m with _ | v
  · simpa using one_le_maxFreq m hm
  · simp only [Option.getD_some]
    have hv := lookup_val_mem k m v hlk
    rw [maxFreq]
    cases m with
    | nil => simp at hv
    | cons a t =>
      simp only [List.isEmpty_cons, Bool.false_eq_true, if_false]
      exact mem_le_foldl_max _ _ hv 0

theorem topicScore_bounds (topics : List (String × List String))
    (questions : List String) (q : String) :
    0 ≤ topicScore topics questions q ∧ topicScore topics questions q ≤ 1 := by
  rw [topicScore]
  rcases hfind : List.find? (fun p => p.2.contains q) topics with _ | p
  · simp only [hfind]
    norm_num
  · simp only [hfind]
    constructor
    · exact le_min (by norm_num) (by positivity)
    · exact min_le_left _ _

theorem recencyScore_bounds (years : Option (List ℕ)) (i : ℕ)
    (hyears : ∀ ys, years = some ys → ∀ y ∈ ys, y ≤ 2025) :
    0 ≤ recencyScore years i ∧ recencyScore years i ≤ 1 := by
  cases years with
  | none =>
    simp only [recencyScore]
    norm_num
  | some ys =>
    simp only [recencyScore]
    split_ifs with hc
    · obtain ⟨hi, hy0⟩ := hc
      have hmem : ys.getD i 0 ∈ ys := by
        rw [List.getD_eq_getElem?_getD]
        rw [List.getElem?_eq_getElem hi]
        simp only [Option.getD_some]
        exact List.getElem_mem _
      have hy := hyears ys rfl _ hmem
      have hcast : (0:ℚ) ≤ ((2025 - (ys.getD i 0 : ℤ) : ℤ) : ℚ) := by
        have : (0:ℤ) ≤ 2025 - (ys.getD i 0 : ℤ) := by
          have : (ys.getD i 0 : ℤ) ≤ 2025 := by exact_mod_cast hy
          omega
        exact_mod_cast this
      constructor
      · exact le_max_left 0 _
      · apply max_le (by norm_num)
        have : (0:ℚ) ≤ ((2025 - (ys.getD i 0 : ℤ) : ℤ) : ℚ) / 10 := by
          positivity
        linarith
    · norm_num

/-- C7 (counterexample): for a question dated 2036 (a year strictly above
the hard-coded `current_year = 2025`), the recency term is
`1 + 11/10 = 2.1`, and the resulting score 1.33 exceeds 1 — the claimed
interval `[0, 1]` does not survive future years. -/
theorem C7_counterexample :
    calculateImportanceScores ["q"] [("T", ["q"])] (some [2036]) []
      = [("q", 133/100)]
    ∧ ¬ ((calculateImportanceScores ["q"] [("T", ["q"])] (some [2036])
          []).getD 0 ("", 0)).2 ≤ 1 := by
  refine ⟨calcFutureYear_eval, ?_⟩
  rw [calcFutureYear_eval]
  norm_num

/-- C7 (amended): every score produced by `calculate_importance_scores`
lies in `[0, 1]` provided every supplied year is at most the hard-coded
current year 2025; with a future year the recency term exceeds 1 and so
can the score (counterexample: year 2036 gives 1.33). -/
theorem C7_score_bounds (questions : List String)
    (topics : List (String × List String)) (years : Option (List ℕ))
    (groups : List (List ℕ))
    (hyears : ∀ ys, years = some ys → ∀ y ∈ ys, y ≤ 2025) :
    ∀ p ∈ calculateImportanceScores questions topics years groups,
      0 ≤ p.2 ∧ p.2 ≤ 1 := by
  intro p hp
  rw [calculateImportanceScores, List.mem_map] at hp
  obtain ⟨iq, hiq, rfl⟩ := hp
  have hvals := buildFreq_vals_pos questions groups
  have hmf := one_le_maxFreq _ hvals
  have hmfQ : (0:ℚ) < ((maxFreq (buildFrequencyMap questions groups) : ℕ) : ℚ) := by
    exact_mod_cast lt_of_lt_of_le Nat.zero_lt_one hmf
  have hfreq0 : (0:ℚ) ≤
      ((ngetD (buildFrequencyMap questions groups) iq.2 1 : ℕ) : ℚ)
        / ((maxFreq (buildFrequencyMap questions groups) : ℕ) : ℚ) := by
    positivity
  have hfreq1 :
      ((ngetD (buildFrequencyMap questions groups) iq.2 1 : ℕ) : ℚ)
        / ((maxFreq (buildFrequencyMap questions groups) : ℕ) : ℚ) ≤ 1 := by
    rw [div_le_one hmfQ]
    exact_mod_cast ngetD_le_maxFreq _ _ hvals
  obtain ⟨hr0, hr1⟩ := recencyScore_bounds years iq.1 hyears
  obtain ⟨ht0, ht1⟩ := topicScore_bounds topics questions iq.2
  constructor
  · exact pyRound_nonneg 3 _ (by linarith)
  · exact pyRound_le_one 3 _ (by linarith)

/-- C7 (witness): the in-range bound applied to the concrete no-years run,
whose single score is 0.7. -/
theorem C7_witness :
    0 ≤ ((calculateImportanceScores ["q"] [] none []).getD 0 ("", 0)).2
    ∧ ((calculateImportanceScores ["q"] [] none []).getD 0 ("", 0)).2 ≤ 1 := by
  apply C7_score_bounds ["q"] [] none []
  · intro ys hys
    cases hys
  · rw [calcNoYears_eval]
    simp

end StudyPlanner
